import Mathlib

/-!
Verification of the video-highlight-generator processing pipeline.

Shallow embedding of the backend's processing code:
* `checkVideoCompletion` and the video worker's embedding stage
  (`src/packages/backend/src/services/processing/queue+worker`),
* `createClipsFromScenes` (`processing.service.ts`),
* the transcript-to-clip mapping of the video worker,
* the embedding providers (`services/embeddings/index.ts`),
* the transcription providers (whisper.cpp local + OpenAI cloud),
* the highlight renderer (`highlight.service.ts`).

Numbers (JS `number`) are modelled as exact rationals `ℚ`; I/O effects
(database rows, queue jobs, temp files, HTTP calls, subprocess results)
are modelled as explicit state or as `Except`/oracle parameters.  The
modelling is single-video: the Prisma `where: {id: videoId}` filters
select exactly the one video row / its clips, so the row-filtering is
the identity in this projection.
-/

namespace VHG

/-- Video status enum (Prisma `Status`). -/
inductive VStatus where
  | UPLOADING
  | PROCESSING
  | TRANSCRIBING
  | EMBEDDING
  | READY
  | FAILED
deriving DecidableEq, Repr

/-- JS strings are modelled as their character sequences (`List Char`):
the string operations the pipeline uses (`join`, `trim`, `length`)
are defined on the character list so they are executable. -/
abbrev JsString := List Char

/-- A persisted Clip row, projected to the fields the pipeline reads and
writes: nullable transcript, nullable embedding (the `Bytes` column is
modelled as the decoded float vector). -/
structure DbClip where
  id : ℕ
  transcript : Option JsString
  embedding : Option (List ℚ)
deriving DecidableEq, Repr

/-- The persisted state of one video: its status row plus its Clip rows. -/
structure VideoDb where
  status : VStatus
  clips : List DbClip
deriving DecidableEq, Repr

/-- The Prisma pending-clips filter of `checkVideoCompletion`:
`embedding: null, OR: [{transcript: {not: ""}}, {transcript: null}]`,
i.e. the clip lacks an embedding and its transcript is not the empty
string (a null transcript counts as pending). -/
def clipPending (c : DbClip) : Bool :=
  c.embedding = none ∧ c.transcript ≠ some []

/-- Number of clips of the video that still block completion. -/
def pendingCount (db : VideoDb) : ℕ :=
  db.clips.countP clipPending

/-- `checkVideoCompletion` (worker module, lines 528-565): count pending
clips; if zero, run `updateMany` guarded by `status: 'EMBEDDING'`,
setting the status to `READY`.  Any other state is left untouched. -/
def checkVideoCompletion (db : VideoDb) : VideoDb :=
  if 0 < pendingCount db then db
  else if db.status = VStatus.EMBEDDING then { db with status := VStatus.READY }
  else db

theorem checkVideoCompletion_clips (db : VideoDb) :
    (checkVideoCompletion db).clips = db.clips := by
  unfold checkVideoCompletion
  split <;> [rfl; (split <;> rfl)]

theorem pendingCount_checkVideoCompletion (db : VideoDb) :
    pendingCount (checkVideoCompletion db) = pendingCount db := by
  unfold pendingCount
  rw [checkVideoCompletion_clips]

/-- C1: `checkVideoCompletion` is idempotent and status-guarded: the
video's status changes only by an `EMBEDDING`-to-`READY` transition and
only when the count of clips lacking an embedding whose transcript is
non-empty-or-null is zero; conversely, under those conditions it does
transition to `READY`; and running it twice in succession equals running
it once (the second invocation changes nothing). -/
theorem checkVideoCompletion_idempotent_status_guarded (db : VideoDb) :
    ((checkVideoCompletion db).status ≠ db.status →
      db.status = VStatus.EMBEDDING ∧
      (checkVideoCompletion db).status = VStatus.READY ∧
      pendingCount db = 0) ∧
    (pendingCount db = 0 → db.status = VStatus.EMBEDDING →
      (checkVideoCompletion db).status = VStatus.READY) ∧
    checkVideoCompletion (checkVideoCompletion db) = checkVideoCompletion db := by
  refine ⟨?_, ?_, ?_⟩
  · intro hne
    unfold checkVideoCompletion at hne ⊢
    by_cases hp : 0 < pendingCount db
    · simp [hp] at hne
    · simp [hp] at hne ⊢
      by_cases hs : db.status = VStatus.EMBEDDING
      · exact ⟨hs, by simp [hs], Nat.eq_zero_of_not_pos hp⟩
      · simp [hs] at hne
  · intro hp hs
    unfold checkVideoCompletion
    simp [hp, hs]
  · by_cases hp : 0 < pendingCount db
    · have h1 : checkVideoCompletion db = db := by
        unfold checkVideoCompletion; simp [hp]
      rw [h1]; exact h1
    · have hp0 : pendingCount db = 0 := Nat.eq_zero_of_not_pos hp
      by_cases hs : db.status = VStatus.EMBEDDING
      · have h1 : checkVideoCompletion db = { db with status := VStatus.READY } := by
          unfold checkVideoCompletion; simp [hp, hs]
        rw [h1]
        have h2 : pendingCount { db with status := VStatus.READY } = 0 := by
          simpa [pendingCount] using hp0
        unfold checkVideoCompletion
        simp [h2]
      · have h1 : checkVideoCompletion db = db := by
          unfold checkVideoCompletion; simp [hp, hs]
        rw [h1]; exact h1

/-- Witness for C1 at a fully-embedded one-clip video in `EMBEDDING`:
its status changes to `READY`, and a second invocation is a no-op. -/
theorem checkVideoCompletion_idempotent_status_guarded_witness :
    (checkVideoCompletion
        ⟨VStatus.EMBEDDING, [⟨0, some ['h', 'i'], some [1, 2]⟩]⟩).status =
      VStatus.READY ∧
    checkVideoCompletion (checkVideoCompletion
        ⟨VStatus.EMBEDDING, [⟨0, some ['h', 'i'], some [1, 2]⟩]⟩) =
      checkVideoCompletion
        ⟨VStatus.EMBEDDING, [⟨0, some ['h', 'i'], some [1, 2]⟩]⟩ :=
  ⟨(checkVideoCompletion_idempotent_status_guarded _).2.1 (by decide) (by decide),
   (checkVideoCompletion_idempotent_status_guarded _).2.2⟩

/-! ## Clip materialization (`ProcessingService.createClipsFromScenes`) -/

/-- A clip as materialized from scene boundaries (the created row's
`startTime`/`endTime`). -/
structure SClip where
  startTime : ℚ
  endTime : ℚ
deriving DecidableEq, Repr

/-- The loop of `createClipsFromScenes` (processing.service.ts lines
216-239), walking the boundary list left to right.  The JS loop indexes
`scenes[i]`; here the list tail plays the index: `rest.head?` is
`scenes[i+1]` and `rest = []` is `i === scenes.length - 1`.  JS
`scenes[i + 1] || duration` is falsy both for `undefined` (past the end)
and for the number `0`, hence the `= 0` test. -/
def createClipsGo (duration minDur : ℚ) : List ℚ → ℚ → List SClip
  | [], _ => []
  | _x :: rest, currentStart =>
    let nextScene := match rest.head? with
      | some s => if s = 0 then duration else s
      | none => duration
    if minDur ≤ nextScene - currentStart ∨ rest = [] then
      ⟨currentStart, nextScene⟩ :: createClipsGo duration minDur rest nextScene
    else
      createClipsGo duration minDur rest currentStart

/-- `scenes[0]`, the loop's initial `currentStart`.  For an empty list
the JS value is `undefined` and is never read by the loop; `0` is an
arbitrary stand-in for that case. -/
def firstScene : List ℚ → ℚ
  | [] => 0
  | x :: _ => x

/-- `createClipsFromScenes` (without the database writes): run the merge
loop starting from `scenes[0]`; if no clips were created, create one clip
for the entire video. -/
def createClipsFromScenes (scenes : List ℚ) (duration minDur : ℚ) : List SClip :=
  match createClipsGo duration minDur scenes (firstScene scenes) with
  | [] => [⟨0, duration⟩]
  | clip :: clips => clip :: clips

theorem createClipsGo_ne_nil (duration minDur : ℚ) :
    ∀ (l : List ℚ) (cs : ℚ), l ≠ [] → createClipsGo duration minDur l cs ≠ [] := by
  intro l
  induction l with
  | nil => intro cs h; exact absurd rfl h
  | cons x rest ih =>
    intro cs _
    unfold createClipsGo
    by_cases hr : rest = []
    · subst hr; simp
    · simp only []
      split
      · exact List.cons_ne_nil _ _
      · exact ih cs hr

theorem createClipsGo_head (duration minDur : ℚ) :
    ∀ (l : List ℚ) (cs : ℚ) (c : SClip),
      (createClipsGo duration minDur l cs).head? = some c → c.startTime = cs := by
  intro l
  induction l with
  | nil => intro cs c h; simp [createClipsGo] at h
  | cons x rest ih =>
    intro cs c h
    unfold createClipsGo at h
    simp only [] at h
    split at h
    · simp at h; rw [← h]
    · exact ih cs c h

theorem createClipsGo_chain (duration minDur : ℚ) :
    ∀ (l : List ℚ) (cs : ℚ),
      List.Chain' (fun a b => a.endTime = b.startTime)
        (createClipsGo duration minDur l cs) := by
  intro l
  induction l with
  | nil => intro cs; simp [createClipsGo]
  | cons x rest ih =>
    intro cs
    unfold createClipsGo
    simp only []
    split
    · rw [List.chain'_cons']
      refine ⟨?_, ih _⟩
      intro b hb
      exact (createClipsGo_head duration minDur rest _ b hb).symm
    · exact ih cs

theorem createClipsGo_dropLast_min (duration minDur : ℚ) :
    ∀ (l : List ℚ) (cs : ℚ),
      ∀ a ∈ (createClipsGo duration minDur l cs).dropLast,
        minDur ≤ a.endTime - a.startTime := by
  intro l
  induction l with
  | nil => intro cs a ha; simp [createClipsGo] at ha
  | cons x rest ih =>
    intro cs a ha
    unfold createClipsGo at ha
    simp only [] at ha
    split at ha
    · rename_i hcond
      by_cases hr : rest = []
      · subst hr
        simp [createClipsGo] at ha
      · have htail : ∀ cs' : ℚ, createClipsGo duration minDur rest cs' ≠ [] :=
          fun cs' => createClipsGo_ne_nil duration minDur rest cs' hr
        rw [List.dropLast_cons_of_ne_nil (htail _)] at ha
        rcases List.mem_cons.mp ha with h | h
        · subst h
          rcases hcond with h1 | h1
          · exact h1
          · exact absurd h1 hr
        · exact ih _ a h
    · exact ih cs a ha

/-- C3: for every non-empty list of scene boundaries and every duration,
clip materialization with minimum duration 3 never emits a clip shorter
than 3 except possibly the last one, consecutive clips are contiguous and
gapless (`clip[i].endTime = clip[i+1].startTime`), at least one clip is
always produced, and should the merge loop produce zero clips, exactly
one clip spanning `[0, duration]` is created. -/
theorem createClipsFromScenes_min_gapless (scenes : List ℚ) (duration : ℚ)
    (hne : scenes ≠ []) :
    (∀ a ∈ (createClipsFromScenes scenes duration 3).dropLast,
        3 ≤ a.endTime - a.startTime) ∧
    List.Chain' (fun a b => a.endTime = b.startTime)
      (createClipsFromScenes scenes duration 3) ∧
    createClipsFromScenes scenes duration 3 ≠ [] ∧
    (createClipsGo duration 3 scenes (firstScene scenes) = [] →
      createClipsFromScenes scenes duration 3 = [⟨0, duration⟩]) := by
  have hgo : createClipsGo duration 3 scenes (firstScene scenes) ≠ [] :=
    createClipsGo_ne_nil duration 3 scenes _ hne
  have heq : createClipsFromScenes scenes duration 3 =
      createClipsGo duration 3 scenes (firstScene scenes) := by
    unfold createClipsFromScenes
    cases hc : createClipsGo duration 3 scenes (firstScene scenes) with
    | nil => exact absurd hc hgo
    | cons a t => rfl
  refine ⟨?_, ?_, ?_, ?_⟩
  · rw [heq]; exact createClipsGo_dropLast_min duration 3 scenes _
  · rw [heq]; exact createClipsGo_chain duration 3 scenes _
  · rw [heq]; exact hgo
  · intro h; exact absurd h hgo

/-- Witness for C3 at scenes `[0, 10]`, duration `10`. -/
theorem createClipsFromScenes_min_gapless_witness :
    ([0, 10] : List ℚ) ≠ [] ∧
    List.Chain' (fun a b => a.endTime = b.startTime)
      (createClipsFromScenes [0, 10] 10 3) :=
  ⟨by decide, (createClipsFromScenes_min_gapless [0, 10] 10 (by decide)).2.1⟩

/-- C4 counterexample: on the canonical short-video boundary list
`[0, duration]` (here duration 10) the merge loop emits a trailing
zero-length clip `[10, 10]`, so `endTime > startTime` fails for a clip
the pipeline creates. -/
theorem createClipsFromScenes_strict_counterexample :
    createClipsFromScenes [0, 10] 10 3 = [⟨0, 10⟩, ⟨10, 10⟩] ∧
    ∃ c ∈ createClipsFromScenes [0, 10] 10 3, ¬ c.startTime < c.endTime := by
  constructor
  · norm_num [createClipsFromScenes, createClipsGo, firstScene]
  · refine ⟨⟨10, 10⟩, ?_, ?_⟩
    · norm_num [createClipsFromScenes, createClipsGo, firstScene]
    · norm_num

theorem createClipsGo_start_le_end (duration minDur : ℚ) (hm : 0 ≤ minDur) :
    ∀ (l : List ℚ) (cs : ℚ), cs ≤ duration → (∀ x ∈ l, x ≤ duration) →
      ∀ c ∈ createClipsGo duration minDur l cs, c.startTime ≤ c.endTime := by
  intro l
  induction l with
  | nil => intro cs _ _ c hc; simp [createClipsGo] at hc
  | cons x rest ih =>
    intro cs hcs hb c hc
    unfold createClipsGo at hc
    simp only [] at hc
    have hb' : ∀ y ∈ rest, y ≤ duration := fun y hy => hb y (List.mem_cons_of_mem x hy)
    have hnext : (match rest.head? with
        | some s => if s = 0 then duration else s
        | none => duration) ≤ duration := by
      cases rest with
      | nil => simp
      | cons y t =>
        simp only [List.head?_cons]
        split
        · exact le_refl _
        · exact hb' y (by simp)
    split at hc
    · rename_i hcond
      rcases List.mem_cons.mp hc with rfl | hmem
      · rcases hcond with h1 | h1
        · show cs ≤ _
          linarith
        · subst h1
          simpa using hcs
      · exact ih _ hnext hb' c hmem
    · exact ih cs hcs hb' c hc

/-- C4 amended: provided every scene boundary is at most the video
duration and the duration is non-negative, every clip created by
`createClipsFromScenes` (minimum duration 3) satisfies
`endTime ≥ startTime`; the strict inequality of the original claim fails
(the last clip may be zero-length, see the counterexample). -/
theorem createClipsFromScenes_start_le_end (scenes : List ℚ) (duration : ℚ)
    (hb : ∀ x ∈ scenes, x ≤ duration) (hd : 0 ≤ duration) :
    ∀ c ∈ createClipsFromScenes scenes duration 3, c.startTime ≤ c.endTime := by
  intro c hc
  unfold createClipsFromScenes at hc
  cases hgo : createClipsGo duration 3 scenes (firstScene scenes) with
  | nil =>
    rw [hgo] at hc
    rcases List.mem_singleton.mp hc with rfl
    simpa using hd
  | cons a t =>
    rw [hgo] at hc
    have hcs : firstScene scenes ≤ duration := by
      cases scenes with
      | nil => simpa [firstScene] using hd
      | cons x tl => exact hb x (by simp)
    refine createClipsGo_start_le_end duration 3 (by norm_num) scenes _ hcs hb c ?_
    rw [hgo]
    exact hc

/-- Witness for the amended C4 at scenes `[0, 10]`, duration `10`, on the
trailing clip `[10, 10]`. -/
theorem createClipsFromScenes_start_le_end_witness :
    (⟨10, 10⟩ : SClip).startTime ≤ (⟨10, 10⟩ : SClip).endTime :=
  createClipsFromScenes_start_le_end [0, 10] 10 (by norm_num) (by norm_num)
    ⟨10, 10⟩ (by norm_num [createClipsFromScenes, createClipsGo, firstScene])

/-! ## Video worker: transcript-to-clip mapping and embedding stage -/

/-- A transient transcript segment `{start, end, text}` as returned by a
transcription provider. -/
structure Segment where
  start : ℚ
  stop : ℚ
  text : JsString
deriving DecidableEq, Repr

/-- JS `trim()` on the character sequence: strip leading and trailing
whitespace. -/
def trimChars (s : JsString) : JsString :=
  ((s.dropWhile Char.isWhitespace).reverse.dropWhile Char.isWhitespace).reverse

/-- JS `join(' ')`. -/
def joinSpace (parts : List JsString) : JsString :=
  List.intercalate [' '] parts

/-- The worker's per-segment filter (worker module lines 232-238): keep a
segment for a clip when the overlap window `[max(starts), min(ends)]` is
non-empty, OR when the segment lies inside the clip
(`s.start >= clip.startTime && s.end <= clip.endTime`; this second
disjunct matters exactly for zero-length segments, which it admits
anywhere inside the clip). -/
def overlapsClip (clipStart clipEnd : ℚ) (s : Segment) : Bool :=
  let overlapStart := max s.start clipStart
  let overlapEnd := min s.stop clipEnd
  overlapStart < overlapEnd ∨ (clipStart ≤ s.start ∧ s.stop ≤ clipEnd)

/-- The per-clip transcript (worker lines 240-243): texts of the kept
segments, in segment order, space-joined and trimmed. -/
def clipTranscript (segs : List Segment) (clipStart clipEnd : ℚ) : JsString :=
  trimChars (joinSpace ((segs.filter (overlapsClip clipStart clipEnd)).map Segment.text))

/-- A clip as the worker sees it (id plus the materialized times). -/
structure WClip where
  id : ℕ
  startTime : ℚ
  endTime : ℚ
deriving DecidableEq, Repr

/-- One element of the worker's `clipTranscripts` array. -/
structure ClipTranscriptEntry where
  clipId : ℕ
  transcript : JsString
  hasTranscript : Bool
deriving DecidableEq, Repr

/-- `prisma.clip.updateMany({where: {id}, data: {transcript}})`. -/
def updateClipTranscript (db : VideoDb) (cid : ℕ) (t : JsString) : VideoDb :=
  { db with clips := db.clips.map fun c =>
      if c.id = cid then { c with transcript := some t } else c }

/-- `prisma.clip.updateMany({where: {id}, data: {embedding}})`. -/
def updateClipEmbedding (db : VideoDb) (cid : ℕ) (v : List ℚ) : VideoDb :=
  { db with clips := db.clips.map fun c =>
      if c.id = cid then { c with embedding := some v } else c }

/-- The worker's transcript loop (lines 230-264): for each clip in order,
compute the overlap transcript, persist it, and record the
`{clipId, transcript, hasTranscript}` entry. -/
def writeTranscripts (segs : List Segment) :
    List WClip → VideoDb → VideoDb × List ClipTranscriptEntry
  | [], db => (db, [])
  | c :: cs, db =>
    let t := clipTranscript segs c.startTime c.endTime
    let db' := updateClipTranscript db c.id t
    let rest := writeTranscripts segs cs db'
    (rest.1, ⟨c.id, t, 0 < t.length⟩ :: rest.2)

/-- The batch path's embedding writes (lines 306-328): pair the
with-transcript clips with the returned embeddings by index; an invalid
(empty) embedding is skipped, the others are persisted. -/
def writeEmbeddings (db : VideoDb) (cwt : List ClipTranscriptEntry)
    (embs : List (List ℚ)) : VideoDb :=
  (cwt.zip embs).foldl
    (fun d pair => if pair.2.isEmpty then d else updateClipEmbedding d pair.1.clipId pair.2) db

/-- The observable outcome of the worker's embedding stage. -/
structure StageOut where
  db : VideoDb
  enqueued : List (ℕ × JsString)
  batchCalled : Bool
  completionChecked : Bool
  clipTranscripts : List ClipTranscriptEntry
deriving Repr

/-- The embedding stage of `videoWorker` (lines 218-373), from the
`EMBEDDING` status update to the end of the batch-or-queue dispatch.
`batchRes` stands for the outcome of
`processingService.generateEmbeddingsBatch` raced against its timeout
(`.error` covers both a rejection and the timeout). -/
def embedStage (segs : List Segment) (clips : List WClip) (db0 : VideoDb)
    (batchRes : Except String (List (List ℚ))) : StageOut :=
  let db1 : VideoDb := { db0 with status := VStatus.EMBEDDING }
  let wt := writeTranscripts segs clips db1
  let db2 := wt.1
  let entries := wt.2
  let cwt := entries.filter (·.hasTranscript)
  let shouldBatch := cwt.length ≤ 10
  if shouldBatch ∧ 0 < cwt.length then
    let transcripts := cwt.map (·.transcript)
    if transcripts.length = 0 then
      -- the code's early-return guard (lines 282-286); unreachable here
      ⟨checkVideoCompletion db2, [], false, true, entries⟩
    else
      match batchRes with
      | .ok embeddings =>
        if embeddings.length ≠ cwt.length then
          -- count-mismatch throw, caught by the fallback (lines 301-303, 342-362)
          ⟨db2, cwt.map (fun e => (e.clipId, e.transcript)), true, false, entries⟩
        else
          ⟨checkVideoCompletion (writeEmbeddings db2 cwt embeddings), [], true, true, entries⟩
      | .error _ =>
        ⟨db2, cwt.map (fun e => (e.clipId, e.transcript)), true, false, entries⟩
  else
    -- many clips: enqueue an embedding job per clip, no completion check
    ⟨db2, cwt.map (fun e => (e.clipId, e.transcript)), false, false, entries⟩

theorem clipTranscript_nil (a b : ℚ) : clipTranscript [] a b = [] := rfl

theorem writeTranscripts_entries (segs : List Segment) :
    ∀ (cs : List WClip) (db : VideoDb),
      (writeTranscripts segs cs db).2 =
        cs.map fun c =>
          ⟨c.id, clipTranscript segs c.startTime c.endTime,
           decide (0 < (clipTranscript segs c.startTime c.endTime).length)⟩ := by
  intro cs
  induction cs with
  | nil => intro db; rfl
  | cons c cs ih => intro db; simp [writeTranscripts, ih]

theorem writeTranscripts_status (segs : List Segment) :
    ∀ (cs : List WClip) (db : VideoDb),
      (writeTranscripts segs cs db).1.status = db.status := by
  intro cs
  induction cs with
  | nil => intro db; rfl
  | cons c cs ih =>
    intro db
    unfold writeTranscripts
    rw [ih]
    rfl

theorem writeTranscripts_ids (segs : List Segment) :
    ∀ (cs : List WClip) (db : VideoDb),
      ∀ r ∈ (writeTranscripts segs cs db).1.clips,
        ∃ r0 ∈ db.clips, r.id = r0.id := by
  intro cs
  induction cs with
  | nil => intro db r hr; exact ⟨r, hr, rfl⟩
  | cons c cs ih =>
    intro db r hr
    unfold writeTranscripts at hr
    obtain ⟨r1, hr1, hid1⟩ := ih _ r hr
    rcases List.mem_map.mp hr1 with ⟨r0, hr0, hf⟩
    refine ⟨r0, hr0, ?_⟩
    rw [hid1, ← hf]
    by_cases hc : r0.id = c.id <;> simp [hc]

theorem writeTranscripts_nil_segs_mem (cs : List WClip) :
    ∀ (db : VideoDb), ∀ r ∈ (writeTranscripts [] cs db).1.clips,
      r ∈ db.clips ∨ r.transcript = some [] := by
  induction cs with
  | nil => intro db r hr; exact Or.inl hr
  | cons c cs ih =>
    intro db r hr
    unfold writeTranscripts at hr
    rcases ih _ r hr with hmem | ht
    · rcases List.mem_map.mp hmem with ⟨r0, hr0, hf⟩
      by_cases hc : r0.id = c.id
      · right
        rw [← hf]
        simp [hc, clipTranscript_nil]
      · left
        rw [← hf]
        simpa [hc] using hr0
    · exact Or.inr ht

theorem writeTranscripts_nil_segs_transcript (cs : List WClip) :
    ∀ (db : VideoDb), ∀ r ∈ (writeTranscripts [] cs db).1.clips,
      (∃ w ∈ cs, w.id = r.id) → r.transcript = some [] := by
  induction cs with
  | nil => intro db r _ ⟨w, hw, _⟩; exact absurd hw (List.not_mem_nil w)
  | cons c cs ih =>
    intro db r hr ⟨w, hw, hwid⟩
    rcases List.mem_cons.mp hw with rfl | hwcs
    · rcases writeTranscripts_nil_segs_mem cs _ r hr with hmem | ht
      · rcases List.mem_map.mp hmem with ⟨r0, _, hf⟩
        by_cases hc : r0.id = w.id
        · rw [← hf]; simp [hc, clipTranscript_nil]
        · exfalso
          rw [if_neg hc] at hf
          exact hc (by rw [hf]; exact hwid.symm)
      · exact ht
    · exact ih _ r hr ⟨w, hwcs, hwid⟩

/-- The freshly created Clip rows for the worker's clips: transcript and
embedding are still null when the embedding stage starts. -/
def freshRows (clips : List WClip) : List DbClip :=
  clips.map fun w => ⟨w.id, none, none⟩

theorem embedStage_eq_of_no_cwt (segs : List Segment) (clips : List WClip)
    (db0 : VideoDb) (br : Except String (List (List ℚ)))
    (h : ((writeTranscripts segs clips
        { db0 with status := VStatus.EMBEDDING }).2.filter (·.hasTranscript)) = []) :
    embedStage segs clips db0 br =
      ⟨(writeTranscripts segs clips { db0 with status := VStatus.EMBEDDING }).1,
       [], false, false,
       (writeTranscripts segs clips { db0 with status := VStatus.EMBEDDING }).2⟩ := by
  unfold embedStage
  simp [h]

/-- C2 (code bug): run the embedding stage for a video whose
transcription returned zero segments, over the freshly created Clip rows.
Every clip is assigned the empty transcript, the batch path is not taken
and no embedding jobs are enqueued — but contrary to the claim the
completion check is never invoked and the video's status stays
`EMBEDDING` rather than transitioning to `READY` (the final conjunct
shows the skipped `checkVideoCompletion` call would have produced
`READY`). -/
theorem embedStage_no_segments (clips : List WClip) (st : VStatus)
    (batchRes : Except String (List (List ℚ))) :
    (embedStage [] clips ⟨st, freshRows clips⟩ batchRes).clipTranscripts =
      clips.map (fun c => ⟨c.id, [], false⟩) ∧
    (embedStage [] clips ⟨st, freshRows clips⟩ batchRes).enqueued = [] ∧
    (embedStage [] clips ⟨st, freshRows clips⟩ batchRes).batchCalled = false ∧
    (embedStage [] clips ⟨st, freshRows clips⟩ batchRes).completionChecked = false ∧
    (embedStage [] clips ⟨st, freshRows clips⟩ batchRes).db.status = VStatus.EMBEDDING ∧
    (checkVideoCompletion
        (embedStage [] clips ⟨st, freshRows clips⟩ batchRes).db).status =
      VStatus.READY := by
  have hentries : (writeTranscripts [] clips
      { (⟨st, freshRows clips⟩ : VideoDb) with status := VStatus.EMBEDDING }).2 =
      clips.map (fun c => ⟨c.id, [], false⟩) := by
    rw [writeTranscripts_entries]
    simp [clipTranscript_nil]
  have hfilter : ((writeTranscripts [] clips
      { (⟨st, freshRows clips⟩ : VideoDb) with status := VStatus.EMBEDDING }).2.filter
        (·.hasTranscript)) = [] := by
    rw [hentries]
    simp [List.filter_eq_nil_iff]
  have hout := embedStage_eq_of_no_cwt [] clips ⟨st, freshRows clips⟩ batchRes hfilter
  have hstatus : (writeTranscripts [] clips
      { (⟨st, freshRows clips⟩ : VideoDb) with status := VStatus.EMBEDDING }).1.status =
      VStatus.EMBEDDING := by
    rw [writeTranscripts_status]
  have hpending : pendingCount (writeTranscripts [] clips
      { (⟨st, freshRows clips⟩ : VideoDb) with status := VStatus.EMBEDDING }).1 = 0 := by
    rw [pendingCount, List.countP_eq_zero]
    intro r hr
    have hids := writeTranscripts_ids [] clips _ r hr
    obtain ⟨r0, hr0, hid⟩ := hids
    rcases List.mem_map.mp hr0 with ⟨w, hw, hwr⟩
    have ht : r.transcript = some [] := by
      refine writeTranscripts_nil_segs_transcript clips _ r hr ⟨w, hw, ?_⟩
      rw [hid, ← hwr]
    simp [clipPending, ht]
  rw [hout]
  refine ⟨hentries, rfl, rfl, rfl, hstatus, ?_⟩
  unfold checkVideoCompletion
  simp [hpending, hstatus]

/-- The segment-assignment condition as amended: temporal overlap
`max(segStart, clipStart) < min(segEnd, clipEnd)`, or containment
`segStart ≥ clipStart ∧ segEnd ≤ clipEnd` (which admits zero-length
marker segments anywhere inside the clip, boundary included). -/
def assignedToClipSpec (clipStart clipEnd : ℚ) (s : Segment) : Prop :=
  max s.start clipStart < min s.stop clipEnd ∨
    (clipStart ≤ s.start ∧ s.stop ≤ clipEnd)

instance (clipStart clipEnd : ℚ) (s : Segment) :
    Decidable (assignedToClipSpec clipStart clipEnd s) := by
  unfold assignedToClipSpec
  infer_instance

/-- C5 counterexample: the zero-length segment `[5, 5]` lies strictly
inside the clip `[0, 10]` — not at its boundary and with an empty overlap
window — yet the worker assigns it to the clip and its text becomes the
clip's transcript.  The claim's "exactly when" characterization is
therefore false. -/
theorem clipMapping_condition_counterexample :
    overlapsClip 0 10 ⟨5, 5, ['x']⟩ = true ∧
    clipTranscript [⟨5, 5, ['x']⟩] 0 10 = ['x'] ∧
    ¬ (max ((5:ℚ)) 0 < min 5 10 ∨
        ((5:ℚ) = (5:ℚ) ∧ ((5:ℚ) = 0 ∨ (5:ℚ) = 10))) := by
  refine ⟨?_, ?_, ?_⟩
  · norm_num [overlapsClip]
  · norm_num [clipTranscript, overlapsClip, joinSpace, trimChars, List.intercalate]
    decide
  · norm_num

theorem embedStage_clipTranscripts (segs : List Segment) (clips : List WClip)
    (db0 : VideoDb) (br : Except String (List (List ℚ))) :
    (embedStage segs clips db0 br).clipTranscripts =
      (writeTranscripts segs clips { db0 with status := VStatus.EMBEDDING }).2 := by
  unfold embedStage
  dsimp only
  split
  · split
    · rfl
    · cases br with
      | ok e =>
        dsimp only
        split <;> rfl
      | error e => rfl
  · rfl

/-- C5 amended: a segment is assigned to a clip exactly when the overlap
window is non-empty OR the segment is contained in the clip (so
zero-length markers are admitted anywhere inside the clip, not only at
its boundary); each clip's recorded-and-persisted transcript is the
space-joined, trimmed concatenation of the texts of exactly its assigned
segments, in segment order, and the worker produces one such entry per
clip in clip order. -/
theorem clipMapping_amended (segs : List Segment) (clips : List WClip)
    (db0 : VideoDb) (br : Except String (List (List ℚ))) :
    (∀ (cS cE : ℚ) (s : Segment),
        overlapsClip cS cE s = true ↔ assignedToClipSpec cS cE s) ∧
    (∀ (cS cE : ℚ), clipTranscript segs cS cE =
        trimChars (joinSpace
          ((segs.filter fun s => decide (assignedToClipSpec cS cE s)).map Segment.text))) ∧
    ((embedStage segs clips db0 br).clipTranscripts =
      clips.map fun c =>
        ⟨c.id, clipTranscript segs c.startTime c.endTime,
         decide (0 < (clipTranscript segs c.startTime c.endTime).length)⟩) := by
  have hpred : ∀ (cS cE : ℚ) (s : Segment),
      overlapsClip cS cE s = decide (assignedToClipSpec cS cE s) := by
    intro cS cE s
    simp [overlapsClip, assignedToClipSpec]
  refine ⟨?_, ?_, ?_⟩
  · intro cS cE s
    rw [hpred]
    simp
  · intro cS cE
    unfold clipTranscript
    congr 2
  · rw [embedStage_clipTranscripts, writeTranscripts_entries]

/-! ## Embedding providers (`services/embeddings/index.ts`)

The backing model call is abstracted as an `EmbedBackend`: `batch` is the
pipeline/API invoked on a list of texts (its tensor output already
decoded to a list of vectors; `.error` covers load failures, rejections
and malformed output), `single` the one-text call used by `embed`. -/

structure EmbedBackend where
  batch : List JsString → Except String (List (List ℚ))
  single : JsString → Except String (List ℚ)

structure EmbeddingResult where
  embedding : List ℚ
  text : JsString
  model : String
deriving DecidableEq, Repr

/-- JS `!(t && t.trim().length > 0)`: the text is empty or
whitespace-only. -/
def isBlank (t : JsString) : Bool :=
  (trimChars t).length = 0

namespace TransformersJsProvider

def modelName : String := "Xenova/all-MiniLM-L6-v2"

/-- `TransformersJsProvider.embed`: call the extractor on one text and
rethrow its failure. -/
def embed (backend : EmbedBackend) (text : JsString) : Except String EmbeddingResult :=
  match backend.single text with
  | .ok v => .ok ⟨v, text, modelName⟩
  | .error e => .error e

/-- The sequential fallback (lines 253-268): embed each text one by one;
a failing item yields an empty vector instead of aborting the batch. -/
def fallbackSeq (backend : EmbedBackend) (texts : List JsString) : List EmbeddingResult :=
  texts.map fun t =>
    match embed backend t with
    | .ok r => r
    | .error _ => ⟨[], t, modelName⟩

/-- Re-merge the embeddings of the non-blank texts with the blank ones at
their original positions (lines 230-248, the `validIndex` walk). -/
def mergeResults : List JsString → List (List ℚ) → List EmbeddingResult
  | [], _ => []
  | t :: ts, embs =>
    if isBlank t then ⟨[], t, modelName⟩ :: mergeResults ts embs
    else ⟨embs.headD [], t, modelName⟩ :: mergeResults ts embs.tail

/-- `TransformersJsProvider.embedBatch` (lines 123-270): empty input
short-circuits; blank texts are filtered out before the backend call; an
all-blank input returns empty vectors without calling the backend; a
backend failure or a returned-count mismatch (the `throw` at lines
222-225, caught by the same `catch`) falls back to sequential embedding;
on success the results are merged back over the original positions. -/
def embedBatch (backend : EmbedBackend) (texts : List JsString) : List EmbeddingResult :=
  if texts.isEmpty then []
  else
    let validTexts := texts.filter fun t => !(isBlank t)
    if validTexts.isEmpty then texts.map fun t => ⟨[], t, modelName⟩
    else
      match backend.batch validTexts with
      | .ok embeddings =>
        if embeddings.length ≠ validTexts.length then fallbackSeq backend texts
        else mergeResults texts embeddings
      | .error _ => fallbackSeq backend texts

end TransformersJsProvider

namespace OpenAIEmbeddingProvider

def modelName : String := "text-embedding-3-small"

/-- `OpenAIEmbeddingProvider.embedBatch` (lines 335-352): the full input
list — blanks included — is passed to the API; the response items are
paired with the inputs by index; any error is rethrown (no filtering, no
count validation, no fallback). -/
def embedBatch (backend : EmbedBackend) (texts : List JsString) :
    Except String (List EmbeddingResult) :=
  match backend.batch texts with
  | .ok data => .ok ((data.zip texts).map fun p => ⟨p.1, p.2, modelName⟩)
  | .error e => .error e

end OpenAIEmbeddingProvider

theorem mergeResults_length :
    ∀ (ts : List JsString) (embs : List (List ℚ)),
      (TransformersJsProvider.mergeResults ts embs).length = ts.length := by
  intro ts
  induction ts with
  | nil => intro embs; rfl
  | cons t ts ih =>
    intro embs
    unfold TransformersJsProvider.mergeResults
    split <;> simp [ih]

theorem mergeResults_get?_blank :
    ∀ (ts : List JsString) (embs : List (List ℚ)) (i : ℕ) (h : i < ts.length),
      isBlank (ts.get ⟨i, h⟩) = true →
      (TransformersJsProvider.mergeResults ts embs).get? i =
        some ⟨[], ts.get ⟨i, h⟩, TransformersJsProvider.modelName⟩ := by
  intro ts
  induction ts with
  | nil => intro embs i h; exact absurd h (by simp)
  | cons t ts ih =>
    intro embs i h hb
    unfold TransformersJsProvider.mergeResults
    cases i with
    | zero =>
      simp at hb
      simp [hb]
    | succ j =>
      simp at hb
      have hj : j < ts.length := Nat.lt_of_succ_lt_succ h
      split <;> simpa using ih _ j hj hb

/-- C6 counterexample: the cloud-API provider's `embedBatch` does none of
the claimed handling — a batch-level backend failure is rethrown instead
of falling back to sequential embedding, and a blank input is passed to
the backend and comes back with the backend's (non-empty) vector rather
than occupying its position with an empty one. -/
theorem openai_embedBatch_counterexample :
    OpenAIEmbeddingProvider.embedBatch
        ⟨fun _ => .error "boom", fun _ => .ok [7]⟩ [['h']] = .error "boom" ∧
    OpenAIEmbeddingProvider.embedBatch
        ⟨fun ts => .ok (ts.map fun _ => [1]), fun _ => .ok [7]⟩ [[]] =
      .ok [⟨[1], [], "text-embedding-3-small"⟩] :=
  ⟨rfl, rfl⟩

theorem tjs_embedBatch_all_blank (backend : EmbedBackend) (texts : List JsString)
    (hne : texts ≠ []) (hfe : texts.filter (fun t => !(isBlank t)) = []) :
    TransformersJsProvider.embedBatch backend texts =
      texts.map fun t => ⟨[], t, TransformersJsProvider.modelName⟩ := by
  unfold TransformersJsProvider.embedBatch
  simp [hne, hfe]

theorem tjs_embedBatch_success (backend : EmbedBackend) (texts : List JsString)
    (embs : List (List ℚ))
    (hvne : texts.filter (fun t => !(isBlank t)) ≠ [])
    (hok : backend.batch (texts.filter fun t => !(isBlank t)) = .ok embs)
    (hlen : embs.length = (texts.filter fun t => !(isBlank t)).length) :
    TransformersJsProvider.embedBatch backend texts =
      TransformersJsProvider.mergeResults texts embs := by
  have hne : texts ≠ [] := by
    intro h
    subst h
    exact hvne rfl
  unfold TransformersJsProvider.embedBatch
  simp [hne, hvne, hok, hlen]

theorem tjs_embedBatch_batch_error (backend : EmbedBackend) (texts : List JsString)
    (e : String)
    (hvne : texts.filter (fun t => !(isBlank t)) ≠ [])
    (herr : backend.batch (texts.filter fun t => !(isBlank t)) = .error e) :
    TransformersJsProvider.embedBatch backend texts =
      TransformersJsProvider.fallbackSeq backend texts := by
  have hne : texts ≠ [] := by
    intro h
    subst h
    exact hvne rfl
  unfold TransformersJsProvider.embedBatch
  simp [hne, hvne, herr]

theorem tjs_embedBatch_count_mismatch (backend : EmbedBackend) (texts : List JsString)
    (embs : List (List ℚ))
    (hvne : texts.filter (fun t => !(isBlank t)) ≠ [])
    (hok : backend.batch (texts.filter fun t => !(isBlank t)) = .ok embs)
    (hlen : embs.length ≠ (texts.filter fun t => !(isBlank t)).length) :
    TransformersJsProvider.embedBatch backend texts =
      TransformersJsProvider.fallbackSeq backend texts := by
  have hne : texts ≠ [] := by
    intro h
    subst h
    exact hvne rfl
  unfold TransformersJsProvider.embedBatch
  simp [hne, hvne, hok, hlen]

theorem tjs_embedBatch_length (backend : EmbedBackend) (texts : List JsString) :
    (TransformersJsProvider.embedBatch backend texts).length = texts.length := by
  unfold TransformersJsProvider.embedBatch
  split
  · rename_i h
    simp only [List.isEmpty_iff] at h
    subst h
    rfl
  · dsimp only
    split
    · simp
    · split
      · split
        · simp [TransformersJsProvider.fallbackSeq]
        · simp [mergeResults_length]
      · simp [TransformersJsProvider.fallbackSeq]

/-- C6 amended: the claimed batch behavior holds for the local-inference
(Transformers.js) provider only.  Its `embedBatch` always returns exactly
N results for N inputs; only the non-blank inputs are handed to the
backend; when the backend succeeds with a validated matching count, every
blank input occupies its original position with an empty vector; a
batch-level failure — backend error or returned-count mismatch — falls
back to sequential single-item embedding.  The cloud-API (OpenAI)
provider instead forwards the whole input list unfiltered and rethrows
batch errors with no fallback. -/
theorem embedBatch_amended (backend : EmbedBackend) (texts : List JsString) :
    (TransformersJsProvider.embedBatch backend texts).length = texts.length ∧
    (∀ t ∈ texts.filter (fun t => !(isBlank t)), isBlank t = false) ∧
    (∀ (embs : List (List ℚ)) (i : ℕ) (h : i < texts.length),
        isBlank (texts.get ⟨i, h⟩) = true →
        backend.batch (texts.filter fun t => !(isBlank t)) = .ok embs →
        embs.length = (texts.filter fun t => !(isBlank t)).length →
        (TransformersJsProvider.embedBatch backend texts).get? i =
          some ⟨[], texts.get ⟨i, h⟩, TransformersJsProvider.modelName⟩) ∧
    (∀ e, texts.filter (fun t => !(isBlank t)) ≠ [] →
        backend.batch (texts.filter fun t => !(isBlank t)) = .error e →
        TransformersJsProvider.embedBatch backend texts =
          TransformersJsProvider.fallbackSeq backend texts) ∧
    (∀ (embs : List (List ℚ)), texts.filter (fun t => !(isBlank t)) ≠ [] →
        backend.batch (texts.filter fun t => !(isBlank t)) = .ok embs →
        embs.length ≠ (texts.filter fun t => !(isBlank t)).length →
        TransformersJsProvider.embedBatch backend texts =
          TransformersJsProvider.fallbackSeq backend texts) ∧
    (∀ e, backend.batch texts = .error e →
        OpenAIEmbeddingProvider.embedBatch backend texts = .error e) := by
  refine ⟨tjs_embedBatch_length backend texts, ?_, ?_, ?_, ?_, ?_⟩
  · intro t ht
    have := List.of_mem_filter ht
    simpa using this
  · intro embs i h hb hok hlen
    have hne : texts ≠ [] := by
      intro hx
      subst hx
      exact absurd h (by simp)
    by_cases hv : texts.filter (fun t => !(isBlank t)) = []
    · rw [tjs_embedBatch_all_blank backend texts hne hv]
      rw [List.get?_map, List.get?_eq_get h]
      rfl
    · rw [tjs_embedBatch_success backend texts embs hv hok hlen]
      exact mergeResults_get?_blank texts embs i h hb
  · intro e hvne herr
    exact tjs_embedBatch_batch_error backend texts e hvne herr
  · intro embs hvne hok hlen
    exact tjs_embedBatch_count_mismatch backend texts embs hvne hok hlen
  · intro e herr
    unfold OpenAIEmbeddingProvider.embedBatch
    rw [herr]

/-- Witness for C6 (amended) on texts `["h", " ", "y"]` with a backend
returning `[1, 2]` for each input: three results, the blank middle input
keeps its position with an empty vector, and a failing backend triggers
the sequential fallback. -/
theorem embedBatch_amended_witness :
    (TransformersJsProvider.embedBatch
        ⟨fun ts => .ok (ts.map fun _ => [1, 2]), fun _ => .ok [9]⟩
        [['h'], [' '], ['y']]).length = 3 ∧
    (TransformersJsProvider.embedBatch
        ⟨fun ts => .ok (ts.map fun _ => [1, 2]), fun _ => .ok [9]⟩
        [['h'], [' '], ['y']]).get? 1 =
      some ⟨[], [' '], TransformersJsProvider.modelName⟩ ∧
    TransformersJsProvider.embedBatch
        ⟨fun _ => .error "boom", fun _ => .ok [9]⟩ [['h'], [' '], ['y']] =
      TransformersJsProvider.fallbackSeq
        ⟨fun _ => .error "boom", fun _ => .ok [9]⟩ [['h'], [' '], ['y']] := by
  refine ⟨(embedBatch_amended _ _).1, ?_, ?_⟩
  · exact (embedBatch_amended
        ⟨fun ts => .ok (ts.map fun _ => [1, 2]), fun _ => .ok [9]⟩
        [['h'], [' '], ['y']]).2.2.1 [[1, 2], [1, 2]] 1 (by decide) (by decide)
      (by rfl) (by decide)
  · exact (embedBatch_amended
        ⟨fun _ => .error "boom", fun _ => .ok [9]⟩
        [['h'], [' '], ['y']]).2.2.2.1 "boom" (by decide) (by rfl)

/-! ## `cosineSimilarity` (both embedding providers, lines 272-291 and
354-373; the two bodies are identical).

JS `Math.sqrt` has no counterpart on `ℚ`, so the square root is an
abstract parameter; every property below either holds for all `sqrt` or
assumes only `sqrt 0 = 0`, which `Math.sqrt` satisfies. -/

/-- The loop's `dotProduct` accumulator. -/
def dotQ (a b : List ℚ) : ℚ :=
  ((a.zip b).map fun p => p.1 * p.2).sum

/-- The loop's `normA`/`normB` accumulators (sum of squares). -/
def sumSq (a : List ℚ) : ℚ :=
  (a.map fun x => x * x).sum

/-- `TransformersJsProvider.cosineSimilarity`: throw on a length
mismatch; otherwise `dot/(sqrt(normA)*sqrt(normB))`, with `0` returned
when the magnitude product is `0`. -/
def TransformersJsProvider.cosineSimilarity (sqrt : ℚ → ℚ) (a b : List ℚ) :
    Except String ℚ :=
  if a.length ≠ b.length then .error "Vectors must have the same length"
  else
    let dotProduct := dotQ a b
    let normA := sumSq a
    let normB := sumSq b
    let magnitude := sqrt normA * sqrt normB
    if magnitude = 0 then .ok 0
    else .ok (dotProduct / magnitude)

/-- `OpenAIEmbeddingProvider.cosineSimilarity`, textually identical to
the Transformers.js one. -/
def OpenAIEmbeddingProvider.cosineSimilarity (sqrt : ℚ → ℚ) (a b : List ℚ) :
    Except String ℚ :=
  if a.length ≠ b.length then .error "Vectors must have the same length"
  else
    let dotProduct := dotQ a b
    let normA := sumSq a
    let normB := sumSq b
    let magnitude := sqrt normA * sqrt normB
    if magnitude = 0 then .ok 0
    else .ok (dotProduct / magnitude)

/-- C10: the two providers' `cosineSimilarity` agree; the call raises if
and only if the two vectors have different lengths; for equal-length
inputs it always returns a value; and (for any square root with
`sqrt 0 = 0`) when either vector's sum of squares — hence its
magnitude — is `0`, the result is `0` rather than a division by zero. -/
theorem cosineSimilarity_error_free (sqrt : ℚ → ℚ) (a b : List ℚ) :
    TransformersJsProvider.cosineSimilarity sqrt a b =
      OpenAIEmbeddingProvider.cosineSimilarity sqrt a b ∧
    ((∃ e, TransformersJsProvider.cosineSimilarity sqrt a b = .error e) ↔
      a.length ≠ b.length) ∧
    (a.length = b.length →
      ∃ q, TransformersJsProvider.cosineSimilarity sqrt a b = .ok q) ∧
    (sqrt 0 = 0 → a.length = b.length → sumSq a = 0 ∨ sumSq b = 0 →
      TransformersJsProvider.cosineSimilarity sqrt a b = .ok 0) := by
  refine ⟨rfl, ?_, ?_, ?_⟩
  · constructor
    · rintro ⟨e, he⟩
      by_cases h : a.length = b.length
      · exfalso
        unfold TransformersJsProvider.cosineSimilarity at he
        rw [if_neg (by simpa using h)] at he
        dsimp only at he
        split at he <;> exact Except.noConfusion he
      · exact h
    · intro h
      refine ⟨"Vectors must have the same length", ?_⟩
      unfold TransformersJsProvider.cosineSimilarity
      rw [if_pos h]
  · intro h
    unfold TransformersJsProvider.cosineSimilarity
    rw [if_neg (by simpa using h)]
    dsimp only
    split
    · exact ⟨0, rfl⟩
    · exact ⟨_, rfl⟩
  · intro hsqrt h hz
    unfold TransformersJsProvider.cosineSimilarity
    rw [if_neg (by simpa using h)]
    dsimp only
    rw [if_pos]
    rcases hz with hz | hz <;> rw [hz, hsqrt] <;> ring

/-- Witness for C10 at `sqrt = id`, `a = b = [0]` (zero magnitude gives
result 0) and at `a = [0]`, `b = []` (length mismatch raises). -/
theorem cosineSimilarity_error_free_witness :
    TransformersJsProvider.cosineSimilarity id [0] [0] = .ok 0 ∧
    (∃ e, TransformersJsProvider.cosineSimilarity id [0] [] = .error e) := by
  constructor
  · exact (cosineSimilarity_error_free id [0] [0]).2.2.2 rfl rfl
      (Or.inl (by norm_num [sumSq]))
  · exact (cosineSimilarity_error_free id [0] []).2.1.mpr (by norm_num)

/-! ## Transcription providers (whisper.cpp local backend) -/

/-- `{segments, language, duration}` as returned by `transcribe`. -/
structure TranscriptionResult where
  segments : List Segment
  language : String
  duration : ℚ
deriving DecidableEq, Repr

/-- `Math.max` fold used for the `duration` field:
`segments.reduce((acc, s) => Math.max(acc, s.end), 0)` (the trailing
`|| 0` re-yields `0` for a falsy result and is the identity here). -/
def maxEnd (segs : List Segment) : ℚ :=
  segs.foldl (fun acc s => max acc s.stop) 0

/-- The parsed body of the local inference service's reply. -/
structure WhisperResponse where
  ok : Bool
  segments : List Segment
  text : Option JsString
  language : Option String
deriving Repr

namespace WhisperCppProvider

def emptyResult : TranscriptionResult := ⟨[], "en", 0⟩

/-- `WhisperCppProvider.transcribe` (part_005 lines 22-72).
`fileRead` is the outcome of the `fs.readFileSync(audioPath)` call,
which happens **before** the `try` block: its failure propagates.
`fetchRes` is the outcome of the `fetch` + JSON parse (`.error` for a
network or parse failure); everything inside the `try` — including a
non-ok HTTP response, which is thrown and immediately caught — resolves
to the empty result.  A response with no segments but a (truthy,
i.e. non-empty) `text` yields the single `[0, 0]` marker segment. -/
def transcribe (fileRead : Except String Unit)
    (fetchRes : Except String WhisperResponse) : Except String TranscriptionResult :=
  match fileRead with
  | .error e => .error e
  | .ok _ =>
    .ok <| match fetchRes with
      | .error _ => emptyResult
      | .ok resp =>
        if !resp.ok then emptyResult
        else
          let segments :=
            if resp.segments.isEmpty then
              match resp.text with
              | some t => if t.isEmpty then [] else [⟨0, 0, t⟩]
              | none => []
            else resp.segments
          ⟨segments, resp.language.getD "en", maxEnd segments⟩

end WhisperCppProvider

/-- C7 counterexample: an unreadable or missing input file makes
`fs.readFileSync` — which sits before the `try` block — throw, so
`transcribe` raises instead of returning the empty result. -/
theorem whisper_transcribe_counterexample :
    WhisperCppProvider.transcribe (.error "ENOENT: no such file")
        (.ok ⟨true, [], none, none⟩) =
      .error "ENOENT: no such file" := rfl

/-- C7 amended: once the input file has been read successfully,
`transcribe` never raises — a network/parse failure or a non-ok HTTP
response each yield the empty result `{segments: [], language: 'en',
duration: 0}` — but a failing file read (missing or unreadable input)
raises with that error. -/
theorem whisper_transcribe_error_handling
    (fetchRes : Except String WhisperResponse) :
    (∃ r, WhisperCppProvider.transcribe (.ok ()) fetchRes = .ok r) ∧
    (∀ e, fetchRes = .error e →
      WhisperCppProvider.transcribe (.ok ()) fetchRes =
        .ok WhisperCppProvider.emptyResult) ∧
    (∀ resp, fetchRes = .ok resp → resp.ok = false →
      WhisperCppProvider.transcribe (.ok ()) fetchRes =
        .ok WhisperCppProvider.emptyResult) ∧
    (∀ e, WhisperCppProvider.transcribe (.error e) fetchRes = .error e) := by
  refine ⟨⟨_, rfl⟩, ?_, ?_, fun e => rfl⟩
  · intro e he
    subst he
    rfl
  · intro resp hresp hok
    subst hresp
    unfold WhisperCppProvider.transcribe
    simp [hok]

/-- Witness for C7 (amended) at a concrete network failure and a
concrete HTTP 500 response. -/
theorem whisper_transcribe_error_handling_witness :
    WhisperCppProvider.transcribe (.ok ()) (.error "fetch failed") =
      .ok WhisperCppProvider.emptyResult ∧
    WhisperCppProvider.transcribe (.ok ())
        (.ok ⟨false, [⟨0, 1, ['a']⟩], none, some "en"⟩) =
      .ok WhisperCppProvider.emptyResult :=
  ⟨(whisper_transcribe_error_handling _).2.1 "fetch failed" rfl,
   (whisper_transcribe_error_handling _).2.2.1 _ rfl rfl⟩

/-! ## Cloud transcription provider: oversized-input chunking -/

/-- The OpenAI Whisper hard input ceiling, 25MB in bytes. -/
def MAX_FILE_SIZE : ℕ := 25 * 1024 * 1024

/-- The target chunk size, 20MB in bytes. -/
def TARGET_CHUNK_SIZE : ℕ := 20 * 1024 * 1024

/-- `Math.ceil(stats.size / TARGET_CHUNK_SIZE)`; on naturals the ceiling
is `(size + TARGET - 1) / TARGET`. -/
def numChunks (size : ℕ) : ℕ :=
  (size + TARGET_CHUNK_SIZE - 1) / TARGET_CHUNK_SIZE

/-- Shift a chunk-local segment by the chunk's start offset
(lines 342-346). -/
def offsetSeg (off : ℚ) (s : Segment) : Segment :=
  ⟨s.start + off, s.stop + off, s.text⟩

/-- Insertion step of the model of `allSegments.sort((a, b) => a.start -
b.start)`: place the new segment after every earlier segment whose start
is not larger (a stable comparison-sort model). -/
def insertSeg (s : Segment) : List Segment → List Segment
  | [] => [s]
  | t :: ts => if s.start < t.start then s :: t :: ts else t :: insertSeg s ts

/-- Stable sort of segments by ascending `start`. -/
def sortSegs (l : List Segment) : List Segment :=
  l.foldl (fun acc s => insertSeg s acc) []

theorem mem_insertSeg (s a : Segment) :
    ∀ l : List Segment, a ∈ insertSeg s l ↔ a = s ∨ a ∈ l := by
  intro l
  induction l with
  | nil => simp [insertSeg]
  | cons t ts ih =>
    unfold insertSeg
    split
    · simp
    · simp [ih]
      tauto

theorem insertSeg_pairwise (s : Segment) :
    ∀ l : List Segment,
      l.Pairwise (fun x y => x.start ≤ y.start) →
      (insertSeg s l).Pairwise (fun x y => x.start ≤ y.start) := by
  intro l
  induction l with
  | nil => intro _; simp [insertSeg]
  | cons t ts ih =>
    intro h
    rw [List.pairwise_cons] at h
    unfold insertSeg
    split
    · rename_i hlt
      rw [List.pairwise_cons]
      refine ⟨?_, by rw [List.pairwise_cons]; exact h⟩
      intro b hb
      rcases List.mem_cons.mp hb with rfl | hbts
      · exact le_of_lt hlt
      · exact le_trans (le_of_lt hlt) (h.1 b hbts)
    · rename_i hge
      rw [List.pairwise_cons]
      refine ⟨?_, ih h.2⟩
      intro b hb
      rcases (mem_insertSeg s b ts).mp hb with rfl | hbts
      · exact le_of_not_lt hge
      · exact h.1 b hbts

theorem sortSegs_sorted_aux :
    ∀ (l acc : List Segment),
      acc.Pairwise (fun x y => x.start ≤ y.start) →
      (l.foldl (fun acc s => insertSeg s acc) acc).Pairwise
        (fun x y => x.start ≤ y.start) := by
  intro l
  induction l with
  | nil => intro acc h; exact h
  | cons s l ih => intro acc h; exact ih _ (insertSeg_pairwise s acc h)

theorem sortSegs_sorted (l : List Segment) :
    (sortSegs l).Pairwise (fun x y => x.start ≤ y.start) :=
  sortSegs_sorted_aux l [] (by simp)

theorem mem_sortSegs_aux (a : Segment) :
    ∀ (l acc : List Segment),
      a ∈ l.foldl (fun acc s => insertSeg s acc) acc ↔ a ∈ acc ∨ a ∈ l := by
  intro l
  induction l with
  | nil => intro acc; simp
  | cons s l ih =>
    intro acc
    rw [List.foldl_cons, ih, mem_insertSeg]
    simp
    tauto

theorem mem_sortSegs (a : Segment) (l : List Segment) :
    a ∈ sortSegs l ↔ a ∈ l := by
  unfold sortSegs
  rw [mem_sortSegs_aux]
  simp

/-- `transcribeInChunks` (part_005 lines 287-381): N duration-equal
chunks, each transcribed independently (`chunkSegs i` is chunk `i`'s
chunk-local segment list), each chunk's segments offset by its start
offset, all segments concatenated and re-sorted by start. -/
def transcribeInChunks (size : ℕ) (duration : ℚ)
    (chunkSegs : ℕ → List Segment) : TranscriptionResult :=
  let n := numChunks size
  let chunkDuration := duration / (n : ℚ)
  let allSegments := (List.range n).bind fun i =>
    (chunkSegs i).map (offsetSeg ((i : ℚ) * chunkDuration))
  let sorted := sortSegs allSegments
  ⟨sorted, "en", maxEnd sorted⟩

/-- The time window `[startTime, endTime]` extracted for chunk `i`
(lines 314-315: `startTime = i * chunkDuration`,
`endTime = min((i+1) * chunkDuration, duration)`). -/
def chunkSpan (size : ℕ) (duration : ℚ) (i : ℕ) : ℚ × ℚ :=
  ((i : ℚ) * (duration / (numChunks size : ℚ)),
   min (((i : ℚ) + 1) * (duration / (numChunks size : ℚ))) duration)

/-- `OpenAITranscriptionProvider.transcribe`, reduced to its size
dispatch (line 134): an input over the 25MB ceiling goes through the
chunking path; `direct` stands for the direct single-file upload path. -/
def OpenAITranscriptionProvider.transcribe (size : ℕ) (duration : ℚ)
    (chunkSegs : ℕ → List Segment)
    (direct : Except String TranscriptionResult) :
    Except String TranscriptionResult :=
  if MAX_FILE_SIZE < size then .ok (transcribeInChunks size duration chunkSegs)
  else direct

theorem numChunks_pos (size : ℕ) (h : MAX_FILE_SIZE < size) :
    0 < numChunks size := by
  unfold numChunks TARGET_CHUNK_SIZE
  unfold MAX_FILE_SIZE at h
  omega

/-- C8: an input whose size exceeds the 25MB ceiling is dispatched to
the chunking path; the chunk count `N` is the ceiling of `size / 20MB`
(characterized by `20MB·(N-1) < size ≤ 20MB·N`); the merged segment
list consists of exactly the chunk-local segments of each chunk
`i < N`, offset by chunk `i`'s start offset `i · (duration / N)`;
the merged list is sorted ascending by `start`; and each chunk's
extraction window has length exactly `duration / N`. -/
theorem openai_transcribe_chunking (size : ℕ) (duration : ℚ)
    (chunkSegs : ℕ → List Segment) (direct : Except String TranscriptionResult)
    (h : MAX_FILE_SIZE < size) :
    OpenAITranscriptionProvider.transcribe size duration chunkSegs direct =
      .ok (transcribeInChunks size duration chunkSegs) ∧
    (TARGET_CHUNK_SIZE * (numChunks size - 1) < size ∧
      size ≤ TARGET_CHUNK_SIZE * numChunks size) ∧
    (∀ s, s ∈ (transcribeInChunks size duration chunkSegs).segments ↔
      ∃ i < numChunks size, ∃ s0 ∈ chunkSegs i,
        s = offsetSeg ((i : ℚ) * (duration / (numChunks size : ℚ))) s0) ∧
    (transcribeInChunks size duration chunkSegs).segments.Pairwise
      (fun x y => x.start ≤ y.start) ∧
    (0 ≤ duration → ∀ i < numChunks size,
      (chunkSpan size duration i).2 - (chunkSpan size duration i).1 =
        duration / (numChunks size : ℚ)) := by
  refine ⟨?_, ?_, ?_, ?_, ?_⟩
  · unfold OpenAITranscriptionProvider.transcribe
    rw [if_pos h]
  · unfold numChunks TARGET_CHUNK_SIZE
    unfold MAX_FILE_SIZE at h
    omega
  · intro s
    unfold transcribeInChunks
    dsimp only
    rw [mem_sortSegs]
    simp only [List.mem_bind, List.mem_map, List.mem_range]
    constructor
    · rintro ⟨i, hi, s0, hs0, rfl⟩
      exact ⟨i, hi, s0, hs0, rfl⟩
    · rintro ⟨i, hi, s0, hs0, rfl⟩
      exact ⟨i, hi, s0, hs0, rfl⟩
  · exact sortSegs_sorted _
  · intro hd i hi
    have hn : 0 < numChunks size := numChunks_pos size h
    have hnq : (0 : ℚ) < (numChunks size : ℚ) := by exact_mod_cast hn
    unfold chunkSpan
    dsimp only
    have hle : ((i : ℚ) + 1) * (duration / (numChunks size : ℚ)) ≤ duration := by
      have hiq : ((i : ℚ) + 1) ≤ (numChunks size : ℚ) := by
        have : (i : ℚ) + 1 = ((i + 1 : ℕ) : ℚ) := by push_cast; ring
        rw [this]
        exact_mod_cast hi
      have hq : 0 ≤ duration / (numChunks size : ℚ) := by positivity
      calc ((i : ℚ) + 1) * (duration / (numChunks size : ℚ))
          ≤ (numChunks size : ℚ) * (duration / (numChunks size : ℚ)) :=
            mul_le_mul_of_nonneg_right hiq hq
        _ = duration := by field_simp
    rw [min_eq_left hle]
    ring

/-- Witness for C8 at a 40MB input: it exceeds the 25MB ceiling, is split
into `N = 2` chunks, and the dispatch takes the chunking path. -/
theorem openai_transcribe_chunking_witness :
    MAX_FILE_SIZE < 40 * 1024 * 1024 ∧
    numChunks (40 * 1024 * 1024) = 2 ∧
    OpenAITranscriptionProvider.transcribe (40 * 1024 * 1024) 100
        (fun _ => []) (.error "unused") =
      .ok (transcribeInChunks (40 * 1024 * 1024) 100 (fun _ => [])) :=
  ⟨by norm_num [MAX_FILE_SIZE],
   by norm_num [numChunks, TARGET_CHUNK_SIZE],
   (openai_transcribe_chunking (40 * 1024 * 1024) 100 (fun _ => [])
      (.error "unused") (by norm_num [MAX_FILE_SIZE])).1⟩

/-! ## Highlight renderer (`HighlightService.generateHighlightVideo`) -/

/-- Highlight status enum. -/
inductive HStatus where
  | PENDING
  | PROCESSING
  | READY
  | FAILED
deriving DecidableEq, Repr

/-- What happens for one ordered HighlightClip in the extraction loop
(lines 183-193): either its backing video path is missing (skipped with a
warning), or `extractClip` fails (the rejection is thrown), or it
succeeds and a temp file is created and collected. -/
inductive HClipSpec where
  | noPath
  | extractFail (e : String)
  | extractOk
deriving DecidableEq, Repr

/-- The renderer's externally observable outcome: the highlight's final
status, how many extracted per-clip temp files are left on disk, and the
returned/raised result. -/
structure RenderOut where
  status : HStatus
  tempRemaining : ℕ
  result : Except String Unit
deriving Repr

/-- The extraction loop: returns the number of temp files created and
the first extraction error, if any (which aborts the loop). -/
def extractPhase : List HClipSpec → ℕ → ℕ × Option String
  | [], k => (k, none)
  | .noPath :: rest, k => extractPhase rest k
  | .extractFail e :: _rest, k => (k, some e)
  | .extractOk :: rest, k => extractPhase rest (k + 1)

/-- `generateHighlightVideo` (lines 155-234), after the status is set to
`PROCESSING`: extract each clip to a temp file; with zero collected paths
throw `No valid clips to process`; concatenate; **then** delete the temp
files (lines 203-210 — inside the `try`, after concatenation, not in a
`finally`); then persist the output path with status `READY`.  The
`catch` sets `FAILED` and rethrows without deleting the per-clip temp
files.  `concatRes`/`persistRes` are the outcomes of the concatenation
and of the final database update. -/
def generateHighlightVideo (clips : List HClipSpec)
    (concatRes : Except String Unit) (persistRes : Except String Unit) : RenderOut :=
  match extractPhase clips 0 with
  | (k, some e) => ⟨HStatus.FAILED, k, .error e⟩
  | (k, none) =>
    if k = 0 then ⟨HStatus.FAILED, 0, .error "No valid clips to process"⟩
    else
      match concatRes with
      | .error e => ⟨HStatus.FAILED, k, .error e⟩
      | .ok _ =>
        match persistRes with
        | .error e => ⟨HStatus.FAILED, 0, .error e⟩
        | .ok _ => ⟨HStatus.READY, 0, .ok ()⟩

/-- C9 counterexample: two clips extract successfully and concatenation
then fails — the renderer sets `FAILED` and rethrows with both extracted
temp files still on disk, so cleanup is not performed "regardless of
success/failure". -/
theorem highlight_cleanup_counterexample :
    generateHighlightVideo [HClipSpec.extractOk, HClipSpec.extractOk]
        (.error "Concatenation failed") (.ok ()) =
      ⟨HStatus.FAILED, 2, .error "Concatenation failed"⟩ ∧
    (generateHighlightVideo [HClipSpec.extractOk, HClipSpec.extractOk]
        (.error "Concatenation failed") (.ok ())).tempRemaining ≠ 0 :=
  ⟨rfl, by decide⟩

/-- C9 amended: the per-clip temp files are deleted only after a
successful concatenation (so a rendering success, and also a failure of
the final persistence update, leave none behind); an exception during
concatenation leaves every already-extracted temp file on disk. -/
theorem highlight_cleanup_amended (clips : List HClipSpec)
    (concatRes persistRes : Except String Unit) :
    (∀ k, extractPhase clips 0 = (k, none) → k ≠ 0 → concatRes = .ok () →
      (generateHighlightVideo clips concatRes persistRes).tempRemaining = 0) ∧
    ((generateHighlightVideo clips concatRes persistRes).status = HStatus.READY →
      (generateHighlightVideo clips concatRes persistRes).tempRemaining = 0 ∧
      (generateHighlightVideo clips concatRes persistRes).result = .ok ()) ∧
    (∀ k e, extractPhase clips 0 = (k, none) → k ≠ 0 → concatRes = .error e →
      generateHighlightVideo clips concatRes persistRes =
        ⟨HStatus.FAILED, k, .error e⟩) := by
  refine ⟨?_, ?_, ?_⟩
  · intro k hext hk hc
    unfold generateHighlightVideo
    rw [hext, hc]
    simp [hk]
    cases persistRes <;> rfl
  · intro hs
    rcases hext : extractPhase clips 0 with ⟨k, opt⟩
    unfold generateHighlightVideo at hs ⊢
    rw [hext] at hs ⊢
    cases opt with
    | some e => simp at hs
    | none =>
      by_cases hk : k = 0
      · simp [hk] at hs
      · simp [hk] at hs ⊢
        cases concatRes with
        | error e => simp at hs
        | ok _ =>
          cases persistRes with
          | error e => simp at hs
          | ok _ => exact ⟨rfl, rfl⟩
  · intro k e hext hk hc
    unfold generateHighlightVideo
    rw [hext, hc]
    simp [hk]

/-- Witness for the amended C9: one successfully extracted clip,
successful concatenation, failing persistence update — the temp file was
already removed (cleanup precedes the persistence write). -/
theorem highlight_cleanup_amended_witness :
    (generateHighlightVideo [HClipSpec.extractOk] (.ok ())
        (.error "db down")).tempRemaining = 0 :=
  (highlight_cleanup_amended [HClipSpec.extractOk] (.ok ())
      (.error "db down")).1 1 rfl (by decide) rfl

end VHG
